import Mathlib

/-!
Verification of `ollama_transfer.py`, a script that exports locally
installed Ollama models (manifest file plus referenced blob files) into a
portable directory tree.

The development shallowly embeds the script's pure logic:

* Python string primitives used by the script (`str.strip`, `str.splitlines`,
  `str.split`, `str.lower`, `int(...)`) are modelled as Lean functions on
  `String`.
* The filesystem is modelled as a record of a directory set and a partial
  map from path strings to file contents; `pathlib.Path.mkdir`,
  `shutil.copy2` and `Path.exists` become operations on that record.
* Interactive `input()` loops are modelled as functions over a list of
  scripted input lines, returning `none` when the script of inputs is
  exhausted (the real program would keep prompting).
-/

namespace OllamaTransfer

/-! ## Python string primitives -/

/-- Whitespace characters recognised by Python's `str.split()` with no
argument (ASCII subset; Python additionally treats some Unicode
whitespace the same way, which never occurs in the inputs modelled
here). -/
def isPySpace (c : Char) : Bool :=
  c = ' ' || c = '\t' || c = '\n' || c = '\x0d' || c = '\x0b' || c = '\x0c'

/-- Split a character list at every character satisfying `p`: `n`
separator occurrences yield `n + 1` groups (the semantics of both
Python's `str.split(sep)` and a character-predicate split). -/
def splitCharList (p : Char → Bool) : List Char → List (List Char)
  | [] => [[]]
  | c :: cs =>
    match splitCharList p cs with
    | [] => [[]]
    | g :: gs => if p c then [] :: g :: gs else (c :: g) :: gs

/-- Python `line.split()`: split on whitespace and drop the empty tokens,
so runs of whitespace act as one separator and no leading or trailing
token is empty. -/
def pySplit (s : String) : List String :=
  ((splitCharList isPySpace s.data).map String.mk).filter (fun t => t ≠ "")

/-- Python `s.strip()`: drop leading and trailing whitespace. -/
def pyStrip (s : String) : String :=
  String.mk (((s.data.dropWhile isPySpace).reverse.dropWhile isPySpace).reverse)

/-- Python `s.splitlines()` restricted to `'\n'` separators: `subprocess.run`
with `text=True` already normalises `'\r\n'` to `'\n'`.  Python yields no
trailing empty line for a trailing newline and `[]` for the empty
string. -/
def pySplitlines (s : String) : List String :=
  if s.data = [] then []
  else
    let parts := (splitCharList (fun c => c = '\n') s.data).map String.mk
    if s.data.getLast? = some '\n' then parts.dropLast else parts

/-- Python `s.split(",")` and `s.split(":")`: split at every occurrence of
a single-character separator, keeping empty pieces. -/
def pySplitOn (sep : Char) (s : String) : List String :=
  (splitCharList (fun c => c = sep) s.data).map String.mk

/-- Python's ASCII lowercase mapping on one character. -/
def pyLowerChar (c : Char) : Char :=
  if 'A' ≤ c ∧ c ≤ 'Z' then Char.ofNat (c.toNat + 32) else c

/-- Python `s.lower()` (ASCII case mapping; all the program compares are
ASCII literals such as `"all"`, `"y"`, `"yes"`). -/
def pyLower (s : String) : String :=
  String.mk (s.data.map pyLowerChar)

/-! ## Manifest model and `parse_manifest` -/

/-- One element of the manifest's `layers` array.  `digest = none` models a
layer object without a `"digest"` key; `digest = some d` models a layer
whose `"digest"` key holds the string `d`. -/
structure Layer where
  digest : Option String
  deriving Repr, DecidableEq

/-- A manifest JSON document, abstracted to the fields `parse_manifest`
reads.  `configDigest` is `manifest.get("config", \x7b\x7d).get("digest")`:
`none` when the `config` object or its `digest` key is absent, `some d`
when the key holds the string `d`. -/
structure Manifest where
  configDigest : Option String
  layers : List Layer
  deriving Repr, DecidableEq

/-- The `for layer in manifest.get("layers", []): if "digest" in layer:
digests.append(layer["digest"])` loop of `parse_manifest`. -/
def layerDigestsLoop : List Layer → List String
  | [] => []
  | l :: rest =>
    match l.digest with
    | some d => d :: layerDigestsLoop rest
    | none => layerDigestsLoop rest

/-- `parse_manifest` (src/ollama_transfer.py lines 141-154): the config
digest is appended first when `if config_digest:` holds, i.e. when it is
present and truthy (a non-empty string); then each layer's digest is
appended when the `"digest"` key is present. -/
def parse_manifest (m : Manifest) : List String :=
  (match m.configDigest with
   | some d => if d = "" then [] else [d]
   | none => []) ++ layerDigestsLoop m.layers

/-- One row of the parsed `ollama list` output. -/
structure ModelRow where
  name : String
  id : String
  size : String
  modified : String
  deriving Repr, DecidableEq, Inhabited

/-- The per-line body of the parsing loop in `get_installed_models`
(src/ollama_transfer.py lines 62-70): split on whitespace; keep the line
only when it yields at least four tokens; token 0 is the name, token 1
the id, tokens 2-3 joined by a space the size, the remaining tokens
joined by spaces the modified string. -/
def parseModelLine (line : String) : Option ModelRow :=
  match pySplit line with
  | n :: i :: s1 :: s2 :: rest =>
    some ⟨n, i, s1 ++ " " ++ s2, " ".intercalate rest⟩
  | _ => none

/-- Comparison used by `models.sort(key=lambda x: x[0].lower())`: Python's
stable sort by the lowercased name under code-point order. -/
def rowLe (a b : ModelRow) : Bool :=
  pyLower a.name ≤ pyLower b.name

/-- `get_installed_models` (src/ollama_transfer.py lines 49-74), as a pure
function of the captured stdout of `ollama list`: strip, split into
lines, drop the header line, parse each remaining line, sort the rows by
lowercased name (Python `list.sort` is a stable merge sort, as is
`List.mergeSort`). -/
def get_installed_models (stdout : String) : List ModelRow :=
  (((pySplitlines (pyStrip stdout)).drop 1).filterMap parseModelLine).mergeSort rowLe

/-- A data line is well-formed when it yields at least four whitespace
tokens. -/
def wellFormedLine (line : String) : Bool :=
  4 ≤ (pySplit line).length

/-- The row the specification prescribes for a well-formed line, built from
its token list by position. -/
def rowOfTokens (ts : List String) : ModelRow :=
  ⟨ts.getD 0 "", ts.getD 1 "", ts.getD 2 "" ++ " " ++ ts.getD 3 "",
    " ".intercalate (ts.drop 4)⟩

/-- Value of a nonempty all-digit character list. -/
def digitsToNat : List Char → Option Nat
  | [] => none
  | ds => if ds.all Char.isDigit then
      some (ds.foldl (fun n c => 10 * n + (c.toNat - 48)) 0)
    else none

/-- Python `int(s)` on an already-stripped string: optional sign followed by
at least one decimal digit, otherwise a `ValueError` (`none`).  Python
additionally allows underscore digit grouping, which never occurs in the
inputs the claims quantify over and is not modelled. -/
def pyInt (s : String) : Option Int :=
  match s.data with
  | '+' :: rest => (digitsToNat rest).map Int.ofNat
  | '-' :: rest => (digitsToNat rest).map (fun n => -(n : Int))
  | ds => (digitsToNat ds).map Int.ofNat

/-- Python `models[choice - 1][0]`: the name in row `choice` (1-based).  The
`""` default is unreachable whenever `1 ≤ choice ≤ models.length`, the
only situation in which `choose_models_text` evaluates it. -/
def nameAt (models : List ModelRow) (choice : Int) : String :=
  ((models.get? (choice - 1).toNat).map ModelRow.name).getD ""

/-- The `for choice in choices` loop of `choose_models_text`
(src/ollama_transfer.py lines 98-103): append the chosen name while every
number is in range `[1, len(models)]`; on the first out-of-range number
print and break (`none`).  `some` is the `for`-`else` path: every choice
was valid. -/
def selectLoop (models : List ModelRow) : List String → List Int → Option (List String)
  | acc, [] => some acc
  | acc, choice :: rest =>
    if 1 ≤ choice ∧ choice ≤ (models.length : Int) then
      selectLoop models (acc ++ [nameAt models choice]) rest
    else none

/-- Outcome of one pass of the `while True` body of `choose_models_text`:
either the function returns `names`, or it prints a message and prompts
again. -/
inductive SelectionStep where
  | done (names : List String)
  | retry
  deriving Repr, DecidableEq

/-- One pass of the `while True` body of `choose_models_text`
(src/ollama_transfer.py lines 85-109) on the input line `raw`: empty
input returns `[]`; `"all"` (case-insensitive) returns every model name;
otherwise the input is split on commas and each piece parsed as an
integer (`ValueError` retries), then the selection loop runs and any
out-of-range number retries the prompt. -/
def choose_models_step (models : List ModelRow) (raw : String) : SelectionStep :=
  let input := pyStrip raw
  if input = "" then .done []
  else if pyLower input = "all" then .done (models.map ModelRow.name)
  else
    match (pySplitOn ',' input).mapM (fun c => pyInt (pyStrip c)) with
    | none => .retry
    | some choices =>
      match selectLoop models [] choices with
      | some sel => if sel.isEmpty then .retry else .done sel
      | none => .retry

/-- `choose_models_text` as a function of the scripted list of input lines:
runs `choose_models_step` on each line until one returns; `none` means
the script was exhausted while the real program would still be
prompting. -/
def choose_models_text (models : List ModelRow) : List String → Option (List String)
  | [] => none
  | i :: rest =>
    match choose_models_step models i with
    | .done names => some names
    | .retry => choose_models_text models rest

/-- A concrete five-row inventory used to witness the selection claims. -/
def modelsFive : List ModelRow :=
  [⟨"alpha", "a1", "1.0 GB", "1 day ago"⟩,
   ⟨"bravo", "b2", "2.0 GB", "2 days ago"⟩,
   ⟨"charlie", "c3", "3.0 GB", "3 days ago"⟩,
   ⟨"delta", "d4", "4.0 GB", "4 days ago"⟩,
   ⟨"echo", "e5", "5.0 GB", "5 days ago"⟩]

/-- The filesystem, as the exporter observes it: a set of existing
directories and a map from file paths to file contents.  Source store
and destination tree live in the same filesystem, distinguished only by
their path prefixes, exactly as in the script. -/
@[ext]
structure FS where
  dirs : String → Bool
  files : String → Option String

/-- `Path.mkdir(parents=True, exist_ok=True)`: record the directory as
existing; never fails when it already exists.  Ancestor creation is
collapsed into the single leaf entry, which is all the claims about the
exporter observe. -/
def mkdirP (fs : FS) (d : String) : FS :=
  { fs with dirs := fun p => if p = d then true else fs.dirs p }

/-- `shutil.copy2` after the destination path is known and the source
content `v` has been read: overwrite `p` with `v`. -/
def fsWrite (fs : FS) (p v : String) : FS :=
  { fs with files := fun q => if q = p then some v else fs.files q }

/-- The user-visible notices `copy_files` prints. -/
inductive Event where
  | errorInvalidName (name : String)
  | manifestCopied (dst : String)
  | blobCopied (fname : String)
  | blobSkipped (fname : String)
  | copyError
  deriving Repr, DecidableEq

/-- `digest.replace(":", "-")`: the single-character replace is exactly a
character map. -/
def dashOf (digest : String) : String :=
  String.mk (digest.data.map (fun c => if c = ':' then '-' else c))

/-- The inverse direction of the digest-to-filename convention, replacing
`'-'` with `':'`; not in the script itself, used to state the round-trip
property the specification asserts. -/
def undashOf (s : String) : String :=
  String.mk (s.data.map (fun c => if c = '-' then ':' else c))

/-- The two root paths the exporter reads from its globals:
`OLLAMA_BLOB_DIR` (source blob directory) and `OUTPUT_DIR` (destination
root). -/
structure ExportConfig where
  srcBlobDir : String
  outputDir : String
  deriving Repr, DecidableEq

/-- `OLLAMA_BLOB_DIR / digest.replace(":", "-")`. -/
def srcBlobPath (cfg : ExportConfig) (digest : String) : String :=
  cfg.srcBlobDir ++ "/" ++ dashOf digest

/-- `blobs_dir / digest.replace(":", "-")` with
`blobs_dir = OUTPUT_DIR / "blobs"`. -/
def dstBlobPath (cfg : ExportConfig) (digest : String) : String :=
  cfg.outputDir ++ "/blobs/" ++ dashOf digest

/-- `OUTPUT_DIR / "manifests" / "registry.ollama.ai" / "library" /
model_base`. -/
def manifestDirPath (cfg : ExportConfig) (base : String) : String :=
  cfg.outputDir ++ "/manifests/registry.ollama.ai/library/" ++ base

/-- `OUTPUT_DIR / "blobs"`. -/
def blobsDirPath (cfg : ExportConfig) : String :=
  cfg.outputDir ++ "/blobs"

/-- `manifest_dir / version`, the flat destination filename of the
manifest. -/
def dstManifestPath (cfg : ExportConfig) (base version : String) : String :=
  manifestDirPath cfg base ++ "/" ++ version

/-- The `for digest in digests` loop of `copy_files`
(src/ollama_transfer.py lines 193-200): if the source blob exists, copy
it over the destination path and print a check mark, else print a
skipped notice and continue. -/
def copyBlobs (cfg : ExportConfig) (fs : FS) : List String → FS × List Event
  | [] => (fs, [])
  | d :: rest =>
    match fs.files (srcBlobPath cfg d) with
    | some c =>
      let out := copyBlobs cfg (fsWrite fs (dstBlobPath cfg d) c) rest
      (out.1, .blobCopied (dashOf d) :: out.2)
    | none =>
      let out := copyBlobs cfg fs rest
      (out.1, .blobSkipped (dashOf d) :: out.2)

/-- `copy_files` (src/ollama_transfer.py lines 167-205): split the model
name on `':'` and report an error (touching nothing) unless it yields
exactly two parts; create the two destination directories; copy the
manifest to `manifest_dir / version` — a missing manifest source raises
inside the `try` and is reported as a caught copy error; then run the
blob loop. -/
def copy_files (cfg : ExportConfig) (fs : FS) (model_name manifest_path : String)
    (digests : List String) : FS × List Event :=
  match pySplitOn ':' model_name with
  | [model_base, version] =>
    let fs1 := mkdirP (mkdirP fs (manifestDirPath cfg model_base)) (blobsDirPath cfg)
    match fs1.files manifest_path with
    | some m =>
      let out := copyBlobs cfg
        (fsWrite fs1 (dstManifestPath cfg model_base version) m) digests
      (out.1, .manifestCopied (dstManifestPath cfg model_base version) :: out.2)
    | none => (fs1, [.copyError])
  | _ => (fs, [.errorInvalidName model_name])

/-- The export loop of `main` (src/ollama_transfer.py lines 248-251): run
`copy_files` for every `(model, manifest_path, digests)` tuple in turn,
threading the filesystem through. -/
def export_models (cfg : ExportConfig) (fs : FS) :
    List (String × String × List String) → FS × List Event
  | [] => (fs, [])
  | (name, mp, ds) :: rest =>
    let out1 := copy_files cfg fs name mp ds
    let out2 := export_models cfg out1.1 rest
    (out2.1, out1.2 ++ out2.2)

/-! ## Confirmation prompt and the orchestrator's gate -/

/-- `prompt_copy` (src/ollama_transfer.py lines 156-165) over the scripted
list of input lines: lowercase then strip each answer, return `true` on
`y`/`yes`, `false` on `n`/`no`, otherwise print and prompt again;
`none` means the script of inputs ran out while the real program would
still be prompting. -/
def prompt_copy : List String → Option Bool
  | [] => none
  | i :: rest =>
    let response := pyStrip (pyLower i)
    if response = "y" ∨ response = "yes" then some true
    else if response = "n" ∨ response = "no" then some false
    else prompt_copy rest

/-- The confirmation gate of `main` (src/ollama_transfer.py lines 247-251):
the export loop runs only when `prompt_copy` returned `True`; on `False`
the function falls through and the process ends with the filesystem
untouched (the `none` branch models a still-prompting program, which has
written nothing either). -/
def confirm_and_export (cfg : ExportConfig) (fs : FS)
    (model_data : List (String × String × List String)) (inputs : List String) :
    FS × List Event :=
  match prompt_copy inputs with
  | some true => export_models cfg fs model_data
  | _ => (fs, [])

/-! ## Path resolver for the source store root -/

/-- The three classes of `platform.system()` results the script
distinguishes. -/
inductive HostOS where
  | darwin
  | windows
  | other
  deriving Repr, DecidableEq

/-- The `OLLAMA_BASE_DIR` computation (src/ollama_transfer.py lines 26-38)
as a function of the host OS, the home directory and the existence
predicate of the filesystem.  On the two home-directory platforms the
root is `~/.ollama/models`; otherwise the script probes
`/var/lib/ollama/blobs`, then `/var/lib/ollama/models/blobs`, assigning
`/var/lib/ollama` in both success cases, and falls back to
`/usr/share/ollama/models`. -/
def resolve_base_dir (os : HostOS) (home : String) (pathExists : String → Bool) : String :=
  match os with
  | .darwin => home ++ "/.ollama/models"
  | .windows => home ++ "/.ollama/models"
  | .other =>
    if pathExists "/var/lib/ollama/blobs" then "/var/lib/ollama"
    else if pathExists "/var/lib/ollama/models/blobs" then "/var/lib/ollama"
    else "/usr/share/ollama/models"

/-- `OLLAMA_BASE_DIR` after the `CUSTOM_OLLAMA_BASE_DIR` override
(src/ollama_transfer.py lines 42-43): a non-empty override wins
verbatim. -/
def ollama_base_dir (custom : String) (os : HostOS) (home : String)
    (pathExists : String → Bool) : String :=
  if custom ≠ "" then custom else resolve_base_dir os home pathExists

/-! ## Last-write-wins characterisation of the exporter's file writes -/

/-- Apply a list of `(path, content)` writes in order, later writes
overriding earlier ones. -/
def applyWrites (f : String → Option String) : List (String × String) → String → Option String
  | [], q => f q
  | (p, v) :: ws, q => applyWrites (fun r => if r = p then some v else f r) ws q

/-- The last write to `q` in the list, if any. -/
def lookupLast (ws : List (String × String)) (q : String) : Option String :=
  match ws with
  | [] => none
  | (p, v) :: rest =>
    match lookupLast rest q with
    | some v' => some v'
    | none => if q = p then some v else none

/-- The write list the blob loop performs, computed against a fixed file
map: one destination write per digest whose source blob exists. -/
def blobWrites (cfg : ExportConfig) (f : String → Option String) : List String → List (String × String)
  | [] => []
  | d :: rest =>
    match f (srcBlobPath cfg d) with
    | some c => (dstBlobPath cfg d, c) :: blobWrites cfg f rest
    | none => blobWrites cfg f rest

/-- The notices the blob loop prints, computed against a fixed file map. -/
def blobEvents (cfg : ExportConfig) (f : String → Option String) : List String → List Event
  | [] => []
  | d :: rest =>
    (match f (srcBlobPath cfg d) with
     | some _ => Event.blobCopied (dashOf d)
     | none => Event.blobSkipped (dashOf d)) :: blobEvents cfg f rest

/-- Recogniser for the per-digest skipped notice. -/
def isSkippedEvent : Event → Bool
  | .blobSkipped _ => true
  | _ => false

/-- A concrete filesystem for the exporter witnesses: the source store
holds the manifest of `llama:8b` and the blob of `sha256:aa`; the blob
of `sha256:bb` is missing. -/
def fsDemo : FS where
  dirs := fun _ => false
  files := fun p =>
    if p = "/base/blobs/sha256-aa" then some "blobA"
    else if p = "/base/manifests/registry.ollama.ai/library/llama/8b" then some "manif"
    else none

/-- The concrete roots for the exporter witnesses: source blob directory
`/base/blobs`, destination root `./ollama`. -/
def cfgDemo : ExportConfig := ⟨"/base/blobs", "./ollama"⟩

lemma layerDigestsLoop_eq_filterMap (ls : List Layer) :
    layerDigestsLoop ls = ls.filterMap Layer.digest := by
  induction ls with
  | nil => rfl
  | cons l rest ih =>
    cases h : l.digest <;> simp [layerDigestsLoop, h, ih]

/-- C1 — For every manifest JSON document, the parser returns the digest
list \[config.digest, if present\] followed by each layer's digest in the
order the layers appear in the `layers` array, skipping layers whose
digest field is missing, with no deduplication even when two digests are
equal; in particular a manifest with config digest d0 and layer digests
\[d1, d2\] yields exactly \[d0, d1, d2\].  FALSE as stated: when the
config digest field is present but holds the empty string it contributes
no entry (the code tests truthiness, not presence).  Concrete
counterexample below. -/
theorem parse_manifest_config_present_counterexample :
    parse_manifest ⟨some "", [⟨some "d1"⟩, ⟨some "d2"⟩]⟩ = ["d1", "d2"] ∧
    parse_manifest ⟨some "", [⟨some "d1"⟩, ⟨some "d2"⟩]⟩ ≠ ["", "d1", "d2"] := by
  constructor
  · rfl
  · decide

/-- C1 (amended) — For every manifest, the parser returns the config digest
first when it is present and non-empty (otherwise no config entry),
followed by exactly the digests of the layers that carry a digest field,
in layer order, with no deduplication even when two digests are equal; a
manifest with non-empty config digest d0 and layer digests \[d1, d2\]
(one layer missing its digest) yields exactly \[d0, d1, d2\], even when
d1 = d2. -/
theorem parse_manifest_spec (m : Manifest) (d0 d1 d2 : String) (h0 : d0 ≠ "") :
    (∀ c : String, m.configDigest = some c → c ≠ "" →
      parse_manifest m = c :: m.layers.filterMap Layer.digest) ∧
    (m.configDigest = none →
      parse_manifest m = m.layers.filterMap Layer.digest) ∧
    parse_manifest ⟨some d0, [⟨some d1⟩, ⟨none⟩, ⟨some d2⟩]⟩ = [d0, d1, d2] := by
  refine ⟨?_, ?_, ?_⟩
  · intro c hc hne
    simp [parse_manifest, hc, hne, layerDigestsLoop_eq_filterMap]
  · intro hc
    simp [parse_manifest, hc, layerDigestsLoop_eq_filterMap]
  · simp [parse_manifest, h0, layerDigestsLoop]

/-- Witness for C1's amended theorem at a concrete manifest, with equal
layer digests to exhibit the no-deduplication part. -/
theorem parse_manifest_spec_witness :
    parse_manifest ⟨some "sha256:aa", [⟨some "sha256:bb"⟩, ⟨none⟩, ⟨some "sha256:bb"⟩]⟩
      = ["sha256:aa", "sha256:bb", "sha256:bb"] := by
  exact (parse_manifest_spec ⟨some "sha256:aa", []⟩ "sha256:aa" "sha256:bb" "sha256:bb"
    (by decide)).2.2

/-- C10 — The manifest parser treats empty-string digests asymmetrically: a
manifest whose config.digest field is present but equal to the empty
string contributes no entry to the returned digest list (the config
digest is included only when truthy), while a layer whose digest key is
present with an empty-string value does contribute an empty-string entry
(layers are filtered by key presence, not truthiness). -/
theorem parse_manifest_empty_string_asymmetry :
    (∀ ls : List Layer, parse_manifest ⟨some "", ls⟩ = parse_manifest ⟨none, ls⟩) ∧
    (∀ pre post : List Layer,
      parse_manifest ⟨none, pre ++ ⟨some ""⟩ :: post⟩ =
        parse_manifest ⟨none, pre⟩ ++ "" :: parse_manifest ⟨none, post⟩) ∧
    parse_manifest ⟨some "", [⟨some ""⟩]⟩ = [""] := by
  refine ⟨fun ls => rfl, fun pre post => ?_, rfl⟩
  simp [parse_manifest, layerDigestsLoop_eq_filterMap]

/-! ## Model inventory reader: `get_installed_models` -/

lemma filterMap_parseModelLine (ls : List String) :
    ls.filterMap parseModelLine =
      (ls.filter wellFormedLine).map (fun l => rowOfTokens (pySplit l)) := by
  induction ls with
  | nil => rfl
  | cons l rest ih =>
    rw [List.filterMap_cons, List.filter_cons]
    match h : pySplit l with
    | n :: i :: s1 :: s2 :: ts =>
      have hw : wellFormedLine l = true := by
        simp [wellFormedLine, h]
      simp only [parseModelLine, h, hw, if_pos, List.map_cons, ih]
      simp [rowOfTokens, h, List.getD]
    | [] => simp [parseModelLine, h, wellFormedLine, ih]
    | [n] => simp [parseModelLine, h, wellFormedLine, ih]
    | [n, i] => simp [parseModelLine, h, wellFormedLine, ih]
    | [n, i, s1] => simp [parseModelLine, h, wellFormedLine, ih]

lemma rowLe_trans (a b c : ModelRow) :
    rowLe a b = true → rowLe b c = true → rowLe a c = true := by
  simp only [rowLe, decide_eq_true_eq]
  exact le_trans

lemma rowLe_total (a b : ModelRow) : (rowLe a b || rowLe b a) = true := by
  simp only [rowLe, Bool.or_eq_true, decide_eq_true_eq]
  exact le_total _ _

/-- C2 — For every external-command output text consisting of a header line
followed by N data lines each containing at least four
whitespace-separated tokens (plus any number of lines with fewer than
four tokens, which are silently dropped), the inventory reader returns
exactly N rows where token 0 is the name, token 1 the id, tokens 2 and 3
joined by a space the size, and the remaining tokens joined by spaces
the modified string, and the returned sequence is sorted
case-insensitively ascending by name; when no line parses it returns the
empty sequence. -/
theorem get_installed_models_spec (stdout header : String) (dataLines : List String)
    (N : ℕ)
    (hlines : pySplitlines (pyStrip stdout) = header :: dataLines)
    (hN : (dataLines.filter wellFormedLine).length = N) :
    (get_installed_models stdout).length = N ∧
    (get_installed_models stdout).Perm
      ((dataLines.filter wellFormedLine).map (fun l => rowOfTokens (pySplit l))) ∧
    (get_installed_models stdout).Pairwise
      (fun a b => pyLower a.name ≤ pyLower b.name) ∧
    (dataLines.filter wellFormedLine = [] → get_installed_models stdout = []) := by
  have hbody : get_installed_models stdout =
      (dataLines.filterMap parseModelLine).mergeSort rowLe := by
    simp [get_installed_models, hlines]
  have hperm : (get_installed_models stdout).Perm
      ((dataLines.filter wellFormedLine).map (fun l => rowOfTokens (pySplit l))) := by
    rw [hbody, ← filterMap_parseModelLine]
    exact List.mergeSort_perm _ _
  refine ⟨?_, hperm, ?_, ?_⟩
  · rw [hperm.length_eq, List.length_map, hN]
  · have := List.sorted_mergeSort rowLe_trans rowLe_total
      (dataLines.filterMap parseModelLine)
    rw [hbody]
    exact this.imp (fun h => by simpa [rowLe] using h)
  · intro hempty
    have : (get_installed_models stdout).length = 0 := by
      rw [hperm.length_eq, hempty]
      rfl
    exact List.eq_nil_of_length_eq_zero this

/-- Witness for C2 at a concrete three-line output: the header is dropped,
the short line is dropped, the rows come back sorted case-insensitively
by name. -/
theorem get_installed_models_spec_witness :
    pySplitlines (pyStrip "NAME ID SIZE MODIFIED\nzeta aa 5.2 GB 2 months ago\nbad line\nAlpha bb 1.1 GB 3 days ago\n")
      = "NAME ID SIZE MODIFIED" ::
        ["zeta aa 5.2 GB 2 months ago", "bad line", "Alpha bb 1.1 GB 3 days ago"] ∧
    (["zeta aa 5.2 GB 2 months ago", "bad line", "Alpha bb 1.1 GB 3 days ago"].filter
      wellFormedLine).length = 2 ∧
    (get_installed_models "NAME ID SIZE MODIFIED\nzeta aa 5.2 GB 2 months ago\nbad line\nAlpha bb 1.1 GB 3 days ago\n").length = 2 := by
  refine ⟨by decide, by decide, ?_⟩
  exact (get_installed_models_spec _ "NAME ID SIZE MODIFIED"
    ["zeta aa 5.2 GB 2 months ago", "bad line", "Alpha bb 1.1 GB 3 days ago"] 2
    (by decide) (by decide)).1

/-! ## Text-mode selection: `choose_models_text` -/

lemma selectLoop_all_valid (models : List ModelRow) (ns : List Int) :
    ∀ acc : List String,
      (∀ n ∈ ns, 1 ≤ n ∧ n ≤ (models.length : Int)) →
      selectLoop models acc ns = some (acc ++ ns.map (nameAt models)) := by
  induction ns with
  | nil => intro acc _; simp [selectLoop]
  | cons c rest ih =>
    intro acc h
    have hc := h c (List.mem_cons_self c rest)
    rw [selectLoop, if_pos hc, ih _ (fun n hn => h n (List.mem_cons_of_mem c hn))]
    simp

lemma selectLoop_invalid (models : List ModelRow) (ns : List Int) :
    ∀ acc : List String,
      (∃ n ∈ ns, ¬(1 ≤ n ∧ n ≤ (models.length : Int))) →
      selectLoop models acc ns = none := by
  induction ns with
  | nil => intro acc h; simp at h
  | cons c rest ih =>
    intro acc h
    by_cases hc : 1 ≤ c ∧ c ≤ (models.length : Int)
    · rw [selectLoop, if_pos hc]
      rcases h with ⟨n, hn, hbad⟩
      rcases List.mem_cons.mp hn with rfl | hmem
      · exact absurd hc hbad
      · exact ih _ ⟨n, hmem, hbad⟩
    · rw [selectLoop, if_neg hc]

/-- C3 — For every inventory of rowCount rows presented by the
numeric-prompt selection variant: an input that is a comma-separated
list of numbers all in \[1, rowCount\] returns the corresponding model
names in the order the user typed the numbers, with duplicate numbers
yielding duplicate names; if any number in the input is out of range the
entire input is rejected and the prompt repeats with no partial
acceptance; the input "all" (case-insensitive) returns all names in
listed order; an empty input returns the empty list. -/
theorem choose_models_text_spec (models : List ModelRow) (i : String)
    (rest : List String) (ns : List Int) :
    (pyStrip i = "" → choose_models_step models i = .done []) ∧
    (pyStrip i ≠ "" → pyLower (pyStrip i) = "all" →
      choose_models_step models i = .done (models.map ModelRow.name)) ∧
    (pyStrip i ≠ "" → pyLower (pyStrip i) ≠ "all" →
      (pySplitOn ',' (pyStrip i)).mapM (fun c => pyInt (pyStrip c)) = some ns →
      ns ≠ [] →
      (∀ n ∈ ns, 1 ≤ n ∧ n ≤ (models.length : Int)) →
      choose_models_step models i = .done (ns.map (nameAt models))) ∧
    (pyStrip i ≠ "" → pyLower (pyStrip i) ≠ "all" →
      (pySplitOn ',' (pyStrip i)).mapM (fun c => pyInt (pyStrip c)) = some ns →
      (∃ n ∈ ns, ¬(1 ≤ n ∧ n ≤ (models.length : Int))) →
      choose_models_step models i = .retry ∧
      choose_models_text models (i :: rest) = choose_models_text models rest) := by
  refine ⟨?_, ?_, ?_, ?_⟩
  · intro h
    simp [choose_models_step, h]
  · intro h hall
    simp [choose_models_step, h, hall]
  · intro h hall hns hne hvalid
    rw [choose_models_step]
    simp only [if_neg h, if_neg hall, hns,
      selectLoop_all_valid models ns [] hvalid, List.nil_append]
    have : (ns.map (nameAt models)).isEmpty = false := by
      cases ns with
      | nil => exact absurd rfl hne
      | cons a l => rfl
    simp [this]
  · intro h hall hns hbad
    have hstep : choose_models_step models i = .retry := by
      rw [choose_models_step]
      simp only [if_neg h, if_neg hall, hns, selectLoop_invalid models ns [] hbad]
    refine ⟨hstep, ?_⟩
    rw [choose_models_text, hstep]

/-- Witness for C3 on the five-row inventory: "1,3" selects rows 1 and 3 in
typed order, "1,9" is rejected whole and the prompt repeats, "all"
returns every name in listed order, and an empty input cancels. -/
theorem choose_models_text_spec_witness :
    choose_models_step modelsFive "1,3" = .done ["alpha", "charlie"] ∧
    (choose_models_step modelsFive "1,9" = .retry ∧
      choose_models_text modelsFive ["1,9", "2"] = choose_models_text modelsFive ["2"]) ∧
    choose_models_step modelsFive "all" = .done ["alpha", "bravo", "charlie", "delta", "echo"] ∧
    choose_models_step modelsFive "" = .done [] := by
  refine ⟨?_, ?_, ?_, ?_⟩
  · have h := (choose_models_text_spec modelsFive "1,3" [] [1, 3]).2.2.1
      (by decide) (by decide) (by decide) (by decide) (by decide)
    rw [h]; decide
  · exact (choose_models_text_spec modelsFive "1,9" ["2"] [1, 9]).2.2.2
      (by decide) (by decide) (by decide) ⟨9, by decide, by decide⟩
  · have h := (choose_models_text_spec modelsFive "all" [] []).2.1 (by decide) (by decide)
    rw [h]; decide
  · exact (choose_models_text_spec modelsFive "" [] []).1 (by decide)

/-! ## Filesystem model and the exporter `copy_files` -/

lemma applyWrites_eq_lookupLast (ws : List (String × String)) :
    ∀ (f : String → Option String) (q : String),
      applyWrites f ws q =
        match lookupLast ws q with
        | some v => some v
        | none => f q := by
  induction ws with
  | nil => intro f q; rfl
  | cons w rest ih =>
    intro f q
    obtain ⟨p, v⟩ := w
    rw [applyWrites, ih, lookupLast]
    cases h : lookupLast rest q with
    | some v' => rfl
    | none => by_cases hq : q = p <;> simp [hq]

lemma lookupLast_eq_none (ws : List (String × String)) (q : String)
    (h : ∀ w ∈ ws, w.1 ≠ q) : lookupLast ws q = none := by
  induction ws with
  | nil => rfl
  | cons w rest ih =>
    obtain ⟨p, v⟩ := w
    rw [lookupLast, ih (fun w hw => h w (List.mem_cons_of_mem _ hw))]
    have : q ≠ p := fun hq => h (p, v) (List.mem_cons_self _ _) hq.symm
    simp [this]

lemma applyWrites_not_written (ws : List (String × String)) (f : String → Option String)
    (q : String) (h : ∀ w ∈ ws, w.1 ≠ q) : applyWrites f ws q = f q := by
  rw [applyWrites_eq_lookupLast, lookupLast_eq_none ws q h]

lemma applyWrites_twice (ws : List (String × String)) (f : String → Option String) :
    applyWrites (applyWrites f ws) ws = applyWrites f ws := by
  funext q
  rw [applyWrites_eq_lookupLast, applyWrites_eq_lookupLast]
  cases h : lookupLast ws q with
  | some v => rfl
  | none => rfl

lemma lookupLast_mem (ws : List (String × String)) (q v : String)
    (h : lookupLast ws q = some v) : (q, v) ∈ ws := by
  induction ws with
  | nil => exact absurd h (by simp [lookupLast])
  | cons w rest ih =>
    obtain ⟨p, u⟩ := w
    rw [lookupLast] at h
    cases hr : lookupLast rest q with
    | some v' =>
      rw [hr] at h
      cases h
      exact List.mem_cons_of_mem _ (ih hr)
    | none =>
      rw [hr] at h
      by_cases hq : q = p
      · rw [if_pos hq] at h
        cases h
        subst hq
        exact List.mem_cons_self _ _
      · rw [if_neg hq] at h
        cases h

lemma lookupLast_isSome_of_mem (ws : List (String × String)) (q v : String)
    (h : (q, v) ∈ ws) : (lookupLast ws q).isSome := by
  induction ws with
  | nil => simp at h
  | cons w rest ih =>
    obtain ⟨p, u⟩ := w
    rw [lookupLast]
    cases hr : lookupLast rest q with
    | some v' => rfl
    | none =>
      rcases List.mem_cons.mp h with heq | hmem
      · cases heq
        simp
      · have := ih hmem
        rw [hr] at this
        simp at this

lemma lookupLast_unique_value (ws : List (String × String)) (q v : String)
    (hmem : (q, v) ∈ ws) (huniq : ∀ w ∈ ws, w.1 = q → w.2 = v) :
    lookupLast ws q = some v := by
  cases h : lookupLast ws q with
  | none =>
    have := lookupLast_isSome_of_mem ws q v hmem
    rw [h] at this
    simp at this
  | some v' =>
    have := huniq (q, v') (lookupLast_mem ws q v' h) rfl
    exact congrArg some this

lemma append_cancel_left_str (a b c : String) (h : a ++ b = a ++ c) : b = c := by
  have hd := congrArg String.data h
  rw [String.data_append, String.data_append] at hd
  exact String.ext_iff.mpr (List.append_cancel_left hd)

lemma dash_eq_of_dstBlobPath_eq (cfg : ExportConfig) (d d' : String)
    (h : dstBlobPath cfg d = dstBlobPath cfg d') : dashOf d = dashOf d' :=
  append_cancel_left_str (cfg.outputDir ++ "/blobs/") (dashOf d) (dashOf d') h

lemma srcBlobPath_eq_of_dash_eq (cfg : ExportConfig) (d d' : String)
    (h : dashOf d = dashOf d') : srcBlobPath cfg d = srcBlobPath cfg d' := by
  rw [srcBlobPath, srcBlobPath, h]

lemma blobWrites_congr (cfg : ExportConfig) (f g : String → Option String) :
    ∀ ds : List String,
      (∀ d ∈ ds, f (srcBlobPath cfg d) = g (srcBlobPath cfg d)) →
      blobWrites cfg f ds = blobWrites cfg g ds := by
  intro ds
  induction ds with
  | nil => intro _; rfl
  | cons d rest ih =>
    intro h
    have hd := h d (List.mem_cons_self _ _)
    have hrest := ih (fun d' hd' => h d' (List.mem_cons_of_mem _ hd'))
    rw [blobWrites, blobWrites, hd, hrest]

lemma blobEvents_congr (cfg : ExportConfig) (f g : String → Option String) :
    ∀ ds : List String,
      (∀ d ∈ ds, f (srcBlobPath cfg d) = g (srcBlobPath cfg d)) →
      blobEvents cfg f ds = blobEvents cfg g ds := by
  intro ds
  induction ds with
  | nil => intro _; rfl
  | cons d rest ih =>
    intro h
    have hd := h d (List.mem_cons_self _ _)
    have hrest := ih (fun d' hd' => h d' (List.mem_cons_of_mem _ hd'))
    rw [blobEvents, blobEvents, hd, hrest]

lemma blobWrites_mem (cfg : ExportConfig) (f : String → Option String)
    (ds : List String) (d : String) (c : String)
    (hd : d ∈ ds) (hc : f (srcBlobPath cfg d) = some c) :
    (dstBlobPath cfg d, c) ∈ blobWrites cfg f ds := by
  induction ds with
  | nil => simp at hd
  | cons d0 rest ih =>
    rcases List.mem_cons.mp hd with rfl | hmem
    · rw [blobWrites, hc]
      exact List.mem_cons_self _ _
    · rw [blobWrites]
      cases h0 : f (srcBlobPath cfg d0) with
      | some c0 => exact List.mem_cons_of_mem _ (ih hmem)
      | none => exact ih hmem

lemma blobWrites_keys (cfg : ExportConfig) (f : String → Option String)
    (ds : List String) :
    ∀ w ∈ blobWrites cfg f ds,
      ∃ d ∈ ds, w.1 = dstBlobPath cfg d ∧ f (srcBlobPath cfg d) = some w.2 := by
  induction ds with
  | nil => intro w hw; simp [blobWrites] at hw
  | cons d0 rest ih =>
    intro w hw
    rw [blobWrites] at hw
    cases h0 : f (srcBlobPath cfg d0) with
    | some c0 =>
      rw [h0] at hw
      rcases List.mem_cons.mp hw with rfl | hmem
      · exact ⟨d0, List.mem_cons_self _ _, rfl, h0⟩
      · obtain ⟨d, hd, h1, h2⟩ := ih w hmem
        exact ⟨d, List.mem_cons_of_mem _ hd, h1, h2⟩
    | none =>
      rw [h0] at hw
      obtain ⟨d, hd, h1, h2⟩ := ih w hw
      exact ⟨d, List.mem_cons_of_mem _ hd, h1, h2⟩

lemma copyBlobs_eq (cfg : ExportConfig) (ds : List String) :
    ∀ fs : FS,
      (∀ d ∈ ds, ∀ d' ∈ ds, srcBlobPath cfg d ≠ dstBlobPath cfg d') →
      copyBlobs cfg fs ds =
        ({ dirs := fs.dirs,
           files := applyWrites fs.files (blobWrites cfg fs.files ds) },
          blobEvents cfg fs.files ds) := by
  induction ds with
  | nil => intro fs _; rfl
  | cons d rest ih =>
    intro fs hsep
    have hdmem : d ∈ d :: rest := List.mem_cons_self _ _
    have hrest : ∀ d' ∈ rest, ∀ d'' ∈ rest,
        srcBlobPath cfg d' ≠ dstBlobPath cfg d'' := fun d' hd' d'' hd'' =>
      hsep d' (List.mem_cons_of_mem _ hd') d'' (List.mem_cons_of_mem _ hd'')
    cases h : fs.files (srcBlobPath cfg d) with
    | some c =>
      have hagree : ∀ d' ∈ rest,
          (fsWrite fs (dstBlobPath cfg d) c).files (srcBlobPath cfg d') =
            fs.files (srcBlobPath cfg d') := by
        intro d' hd'
        have hne : srcBlobPath cfg d' ≠ dstBlobPath cfg d :=
          hsep d' (List.mem_cons_of_mem _ hd') d hdmem
        simp [fsWrite, hne]
      simp only [copyBlobs, h]
      rw [ih (fsWrite fs (dstBlobPath cfg d) c) hrest]
      rw [blobWrites_congr cfg _ _ rest hagree, blobEvents_congr cfg _ _ rest hagree]
      rw [blobWrites, blobEvents, h]
      rfl
    | none =>
      simp only [copyBlobs, h]
      rw [ih fs hrest]
      rw [blobWrites, blobEvents, h]

lemma copy_files_eq (cfg : ExportConfig) (fs : FS) (mn mp : String) (ds : List String)
    (base version m : String)
    (hname : pySplitOn ':' mn = [base, version])
    (hm : fs.files mp = some m)
    (hsepM : ∀ d ∈ ds, srcBlobPath cfg d ≠ dstManifestPath cfg base version)
    (hsepB : ∀ d ∈ ds, ∀ d' ∈ ds, srcBlobPath cfg d ≠ dstBlobPath cfg d') :
    copy_files cfg fs mn mp ds =
      ({ dirs := (mkdirP (mkdirP fs (manifestDirPath cfg base)) (blobsDirPath cfg)).dirs,
         files := applyWrites fs.files
           ((dstManifestPath cfg base version, m) :: blobWrites cfg fs.files ds) },
        Event.manifestCopied (dstManifestPath cfg base version) :: blobEvents cfg fs.files ds) := by
  have hm1 : (mkdirP (mkdirP fs (manifestDirPath cfg base)) (blobsDirPath cfg)).files mp
      = some m := hm
  simp only [copy_files, hname, hm1]
  rw [copyBlobs_eq cfg ds
    (fsWrite (mkdirP (mkdirP fs (manifestDirPath cfg base)) (blobsDirPath cfg))
      (dstManifestPath cfg base version) m) hsepB]
  have hagree : ∀ d ∈ ds,
      (fsWrite (mkdirP (mkdirP fs (manifestDirPath cfg base)) (blobsDirPath cfg))
        (dstManifestPath cfg base version) m).files (srcBlobPath cfg d) =
        fs.files (srcBlobPath cfg d) := by
    intro d hd
    simp [fsWrite, mkdirP, hsepM d hd]
  rw [blobWrites_congr cfg _ _ ds hagree, blobEvents_congr cfg _ _ ds hagree]
  rfl

lemma blobEvents_filter_skipped (cfg : ExportConfig) (f : String → Option String)
    (ds : List String) :
    (blobEvents cfg f ds).filter isSkippedEvent =
      (ds.filter (fun d => (f (srcBlobPath cfg d)).isNone)).map
        (fun d => Event.blobSkipped (dashOf d)) := by
  induction ds with
  | nil => rfl
  | cons d rest ih =>
    rw [blobEvents, List.filter_cons, List.filter_cons]
    cases h : f (srcBlobPath cfg d) with
    | some c => simpa [isSkippedEvent] using ih
    | none => simpa [isSkippedEvent] using ih

/-- C4 — For every model name that does not split on ':' into exactly two
parts, the exporter reports an error for that model and returns without
performing any copy or directory creation for it (the destination tree
is unchanged by that model's export), and the orchestrator continues
exporting the remaining selected models. -/
theorem copy_files_invalid_name (cfg : ExportConfig) (fs : FS) (mn mp : String)
    (ds : List String) (rest : List (String × String × List String))
    (h : (pySplitOn ':' mn).length ≠ 2) :
    copy_files cfg fs mn mp ds = (fs, [Event.errorInvalidName mn]) ∧
    export_models cfg fs ((mn, mp, ds) :: rest) =
      ((export_models cfg fs rest).1,
        Event.errorInvalidName mn :: (export_models cfg fs rest).2) := by
  have hcf : copy_files cfg fs mn mp ds = (fs, [Event.errorInvalidName mn]) := by
    rw [copy_files]
    cases hs : pySplitOn ':' mn with
    | nil => rfl
    | cons a t =>
      cases t with
      | nil => rfl
      | cons b t2 =>
        cases t2 with
        | nil => exact absurd (by rw [hs]; rfl) h
        | cons c t3 => rfl
  refine ⟨hcf, ?_⟩
  rw [export_models, hcf]
  rfl

/-- Witness for C4: the name "badname" has no colon, so its export leaves
the filesystem untouched, reports the error, and the loop still
processes the remaining models. -/
theorem copy_files_invalid_name_witness :
    copy_files ⟨"/base/blobs", "./ollama"⟩ ⟨fun _ => false, fun _ => none⟩
        "badname" "/mp" [] =
      (⟨fun _ => false, fun _ => none⟩, [Event.errorInvalidName "badname"]) ∧
    export_models ⟨"/base/blobs", "./ollama"⟩ ⟨fun _ => false, fun _ => none⟩
        [("badname", "/mp", [])] =
      ((export_models ⟨"/base/blobs", "./ollama"⟩ ⟨fun _ => false, fun _ => none⟩ []).1,
        Event.errorInvalidName "badname" ::
          (export_models ⟨"/base/blobs", "./ollama"⟩ ⟨fun _ => false, fun _ => none⟩ []).2) :=
  copy_files_invalid_name ⟨"/base/blobs", "./ollama"⟩ ⟨fun _ => false, fun _ => none⟩
    "badname" "/mp" [] [] (by decide)

/-- C5 — For every digest list in which some digests' source blob files do
not exist, the exporter copies every digest whose source blob exists,
emits exactly one skipped notice per missing digest, and the missing
blobs never abort the export of that model or of subsequent models.  The
separation hypotheses say that the source store paths being read are not
among the destination paths being written, which is how the script is
laid out (source store vs. `./ollama`). -/
theorem copy_files_missing_blobs (cfg : ExportConfig) (fs : FS) (mn mp : String)
    (ds : List String) (base version m : String)
    (rest : List (String × String × List String))
    (hname : pySplitOn ':' mn = [base, version])
    (hm : fs.files mp = some m)
    (hsepM : ∀ d ∈ ds, srcBlobPath cfg d ≠ dstManifestPath cfg base version)
    (hsepB : ∀ d ∈ ds, ∀ d' ∈ ds, srcBlobPath cfg d ≠ dstBlobPath cfg d') :
    ((copy_files cfg fs mn mp ds).2.filter isSkippedEvent =
      (ds.filter (fun d => (fs.files (srcBlobPath cfg d)).isNone)).map
        (fun d => Event.blobSkipped (dashOf d))) ∧
    (∀ d ∈ ds, ∀ c : String, fs.files (srcBlobPath cfg d) = some c →
      (copy_files cfg fs mn mp ds).1.files (dstBlobPath cfg d) = some c) ∧
    export_models cfg fs ((mn, mp, ds) :: rest) =
      ((export_models cfg (copy_files cfg fs mn mp ds).1 rest).1,
        (copy_files cfg fs mn mp ds).2 ++
          (export_models cfg (copy_files cfg fs mn mp ds).1 rest).2) := by
  refine ⟨?_, ?_, rfl⟩
  · rw [copy_files_eq cfg fs mn mp ds base version m hname hm hsepM hsepB]
    show (Event.manifestCopied (dstManifestPath cfg base version) ::
        blobEvents cfg fs.files ds).filter isSkippedEvent = _
    rw [List.filter_cons]
    simp [isSkippedEvent, blobEvents_filter_skipped]
  · intro d hd c hc
    rw [copy_files_eq cfg fs mn mp ds base version m hname hm hsepM hsepB]
    show applyWrites fs.files
      ((dstManifestPath cfg base version, m) :: blobWrites cfg fs.files ds)
      (dstBlobPath cfg d) = some c
    have hlast : lookupLast (blobWrites cfg fs.files ds) (dstBlobPath cfg d) = some c := by
      apply lookupLast_unique_value
      · exact blobWrites_mem cfg fs.files ds d c hd hc
      · intro w hw hk
        obtain ⟨d', hd', hk', hv'⟩ := blobWrites_keys cfg fs.files ds w hw
        have hdd : dstBlobPath cfg d' = dstBlobPath cfg d := hk'.symm.trans hk
        have hsrc : srcBlobPath cfg d' = srcBlobPath cfg d :=
          srcBlobPath_eq_of_dash_eq cfg d' d (dash_eq_of_dstBlobPath_eq cfg d' d hdd)
        rw [hsrc, hc] at hv'
        exact (Option.some_inj.mp hv').symm
    rw [applyWrites_eq_lookupLast, lookupLast, hlast]

/-- Witness for C5 at the concrete store: exporting `llama:8b` with digest
list `[sha256:aa, sha256:bb]` (the second blob missing) copies the first
blob's content and emits exactly one skipped notice, for `sha256-bb`. -/
theorem copy_files_missing_blobs_witness :
    ((copy_files cfgDemo fsDemo "llama:8b"
        "/base/manifests/registry.ollama.ai/library/llama/8b"
        ["sha256:aa", "sha256:bb"]).2.filter isSkippedEvent =
      [Event.blobSkipped "sha256-bb"]) ∧
    (copy_files cfgDemo fsDemo "llama:8b"
        "/base/manifests/registry.ollama.ai/library/llama/8b"
        ["sha256:aa", "sha256:bb"]).1.files "./ollama/blobs/sha256-aa" = some "blobA" := by
  have h := copy_files_missing_blobs cfgDemo fsDemo "llama:8b"
    "/base/manifests/registry.ollama.ai/library/llama/8b"
    ["sha256:aa", "sha256:bb"] "llama" "8b" "manif" []
    (by decide) (by decide)
    (by intro d hd; fin_cases hd <;> decide)
    (by intro d hd d' hd'; fin_cases hd <;> fin_cases hd' <;> decide)
  constructor
  · rw [h.1]
    decide
  · have := h.2.1 "sha256:aa" (by decide) "blobA" (by decide)
    exact this

/-- C6 — Running the exporter twice with the same model name, manifest
path, and digest list against the same destination tree produces the
same final destination file set as running it once: directory creation
is idempotent (safe when the directories already exist) and copies
overwrite existing destination files without error or duplication on the
second run.  The separation hypotheses say the paths read (manifest
source, source blobs) are not among the paths written, which is how the
script is laid out. -/
theorem copy_files_idempotent (cfg : ExportConfig) (fs : FS) (mn mp : String)
    (ds : List String) (base version m : String)
    (hname : pySplitOn ':' mn = [base, version])
    (hm : fs.files mp = some m)
    (hsepM : ∀ d ∈ ds, srcBlobPath cfg d ≠ dstManifestPath cfg base version)
    (hsepB : ∀ d ∈ ds, ∀ d' ∈ ds, srcBlobPath cfg d ≠ dstBlobPath cfg d')
    (hmpM : mp ≠ dstManifestPath cfg base version)
    (hmpB : ∀ d ∈ ds, mp ≠ dstBlobPath cfg d) :
    copy_files cfg (copy_files cfg fs mn mp ds).1 mn mp ds = copy_files cfg fs mn mp ds ∧
    ∀ (g : FS) (p : String), mkdirP (mkdirP g p) p = mkdirP g p := by
  have h1 := copy_files_eq cfg fs mn mp ds base version m hname hm hsepM hsepB
  have hWkeys : ∀ w ∈ ((dstManifestPath cfg base version, m) :: blobWrites cfg fs.files ds),
      w.1 = dstManifestPath cfg base version ∨ ∃ d ∈ ds, w.1 = dstBlobPath cfg d := by
    intro w hw
    rcases List.mem_cons.mp hw with rfl | hw'
    · exact Or.inl rfl
    · obtain ⟨d, hd, hk, _⟩ := blobWrites_keys cfg fs.files ds w hw'
      exact Or.inr ⟨d, hd, hk⟩
  have hfsp : (copy_files cfg fs mn mp ds).1.files =
      applyWrites fs.files
        ((dstManifestPath cfg base version, m) :: blobWrites cfg fs.files ds) := by
    rw [h1]
  have hmp' : (copy_files cfg fs mn mp ds).1.files mp = some m := by
    rw [hfsp, applyWrites_not_written _ _ _ ?keys, hm]
    case keys =>
      intro w hw
      rcases hWkeys w hw with hk | ⟨d, hd, hk⟩
      · rw [hk]; exact fun he => hmpM he.symm
      · rw [hk]; exact fun he => hmpB d hd he.symm
  have hsrc' : ∀ d ∈ ds, (copy_files cfg fs mn mp ds).1.files (srcBlobPath cfg d) =
      fs.files (srcBlobPath cfg d) := by
    intro d hd
    rw [hfsp, applyWrites_not_written]
    intro w hw
    rcases hWkeys w hw with hk | ⟨d', hd', hk⟩
    · rw [hk]; exact fun he => hsepM d hd he.symm
    · rw [hk]; exact fun he => hsepB d hd d' hd' he.symm
  have h2 := copy_files_eq cfg (copy_files cfg fs mn mp ds).1 mn mp ds base version m
    hname hmp' hsepM hsepB
  constructor
  · rw [h2]
    rw [blobWrites_congr cfg _ _ ds hsrc', blobEvents_congr cfg _ _ ds hsrc']
    rw [hfsp, applyWrites_twice]
    rw [h1]
    refine Prod.ext ?_ rfl
    refine FS.ext ?_ rfl
    funext p
    simp only [mkdirP]
    split_ifs <;> rfl
  · intro g p
    refine FS.ext ?_ rfl
    funext q
    simp only [mkdirP]
    split_ifs <;> rfl

/-- Witness for C6 at the concrete store: a second export of `llama:8b`
returns exactly the result of the first. -/
theorem copy_files_idempotent_witness :
    copy_files cfgDemo
        (copy_files cfgDemo fsDemo "llama:8b"
          "/base/manifests/registry.ollama.ai/library/llama/8b"
          ["sha256:aa", "sha256:bb"]).1 "llama:8b"
        "/base/manifests/registry.ollama.ai/library/llama/8b"
        ["sha256:aa", "sha256:bb"] =
      copy_files cfgDemo fsDemo "llama:8b"
        "/base/manifests/registry.ollama.ai/library/llama/8b"
        ["sha256:aa", "sha256:bb"] :=
  (copy_files_idempotent cfgDemo fsDemo "llama:8b"
    "/base/manifests/registry.ollama.ai/library/llama/8b"
    ["sha256:aa", "sha256:bb"] "llama" "8b" "manif"
    (by decide) (by decide)
    (by intro d hd; fin_cases hd <;> decide)
    (by intro d hd d' hd'; fin_cases hd <;> fin_cases hd' <;> decide)
    (by decide)
    (by intro d hd; fin_cases hd <;> decide)).1

/-- C7 — The digest-to-filename mapping is the pure function replacing ':'
with '-' (so "sha256:abc" maps to "sha256-abc"), and for every digest
string containing exactly one ':' and no '-', applying the mapping and
then replacing '-' with ':' returns the original string (the round trip
is the identity on such digests). -/
theorem dash_roundtrip (s : String)
    (_h1 : s.data.count ':' = 1) (h2 : '-' ∉ s.data) :
    dashOf "sha256:abc" = "sha256-abc" ∧ undashOf (dashOf s) = s := by
  refine ⟨by decide, ?_⟩
  show String.mk ((s.data.map fun c => if c = ':' then '-' else c).map
    fun c => if c = '-' then ':' else c) = s
  rw [List.map_map]
  have hid : ∀ c ∈ s.data,
      ((fun c => if c = '-' then ':' else c) ∘ fun c => if c = ':' then '-' else c) c
        = id c := by
    intro c hc
    by_cases hcq : c = ':'
    · simp [hcq, Function.comp]
    · have hcd : c ≠ '-' := fun hh => h2 (hh ▸ hc)
      simp [hcq, hcd, Function.comp]
  rw [List.map_congr_left hid, List.map_id]

/-- Witness for C7 at the synthetic digest "sha256:abc": exactly one colon,
no dash, and the round trip is the identity. -/
theorem dash_roundtrip_witness :
    "sha256:abc".data.count ':' = 1 ∧ '-' ∉ "sha256:abc".data ∧
    undashOf (dashOf "sha256:abc") = "sha256:abc" :=
  ⟨by decide, by decide, (dash_roundtrip "sha256:abc" (by decide) (by decide)).2⟩

/-- C8 — the claim says the resolver uses the first candidate whose
`blobs`-subdirectory probe succeeds as the source root.  The code slips
in the second branch: it probes `/var/lib/ollama/models/blobs` but then
assigns `/var/lib/ollama` — the candidate whose probe just failed — as
the root.  Evaluated here at the failing input (no override, other OS,
first probe fails, second succeeds): the resolver answers
`/var/lib/ollama`, not the successful candidate `/var/lib/ollama/models`
the claim prescribes. -/
theorem resolve_base_dir_second_probe :
    resolve_base_dir .other "/home/user"
        (fun p => p == "/var/lib/ollama/models/blobs") = "/var/lib/ollama" ∧
    (fun p => p == "/var/lib/ollama/models/blobs") "/var/lib/ollama/blobs" = false ∧
    "/var/lib/ollama" ≠ "/var/lib/ollama/models" ∧
    ollama_base_dir "" .other "/home/user"
        (fun p => p == "/var/lib/ollama/models/blobs") = "/var/lib/ollama" := by
  refine ⟨by decide, by decide, by decide, by decide⟩

/-- C9 — No destination file is ever written unless the user answers the
confirmation prompt affirmatively: the yes/no prompt loops until the
(case-insensitively, whitespace-stripped) answer is one of y/yes/n/no,
returns true exactly for y/yes, and when it returns false the
orchestrator exits without invoking the exporter for any selected
model. -/
theorem prompt_copy_spec (i : String) (inputs rest : List String)
    (cfg : ExportConfig) (fs : FS) (md : List (String × String × List String)) :
    (pyStrip (pyLower i) ≠ "y" → pyStrip (pyLower i) ≠ "yes" →
      pyStrip (pyLower i) ≠ "n" → pyStrip (pyLower i) ≠ "no" →
      prompt_copy (i :: rest) = prompt_copy rest) ∧
    (pyStrip (pyLower i) = "y" ∨ pyStrip (pyLower i) = "yes" →
      prompt_copy (i :: rest) = some true) ∧
    (pyStrip (pyLower i) = "n" ∨ pyStrip (pyLower i) = "no" →
      prompt_copy (i :: rest) = some false) ∧
    (prompt_copy inputs ≠ some true →
      confirm_and_export cfg fs md inputs = (fs, [])) := by
  refine ⟨?_, ?_, ?_, ?_⟩
  · intro h1 h2 h3 h4
    rw [prompt_copy]
    simp [h1, h2, h3, h4]
  · intro h
    rcases h with h | h <;> rw [prompt_copy] <;> simp [h]
  · intro h
    rcases h with h | h <;> rw [prompt_copy] <;> simp [h]
  · intro h
    cases hp : prompt_copy inputs with
    | none => simp [confirm_and_export, hp]
    | some b =>
      cases b with
      | true => exact absurd hp h
      | false => simp [confirm_and_export, hp]

/-- Witness for C9: " Y " confirms, "maybe" loops, "No" declines, and a
declined prompt leaves the filesystem untouched with nothing exported. -/
theorem prompt_copy_spec_witness :
    prompt_copy [" Y "] = some true ∧
    prompt_copy ["maybe", "no"] = prompt_copy ["no"] ∧
    prompt_copy ["No"] = some false ∧
    confirm_and_export cfgDemo fsDemo [("llama:8b", "/mp", [])] ["No"] = (fsDemo, []) := by
  refine ⟨?_, ?_, ?_, ?_⟩
  · exact (prompt_copy_spec " Y " [] [] cfgDemo fsDemo []).2.1 (Or.inl (by decide))
  · exact (prompt_copy_spec "maybe" [] ["no"] cfgDemo fsDemo []).1
      (by decide) (by decide) (by decide) (by decide)
  · exact (prompt_copy_spec "No" [] [] cfgDemo fsDemo []).2.2.1 (Or.inr (by decide))
  · exact (prompt_copy_spec "" ["No"] [] cfgDemo fsDemo
      [("llama:8b", "/mp", [])]).2.2.2 (by decide)

end OllamaTransfer
